import Mathlib

/-!
Verification of the caching / deduplication / resilience layer of the
mm-mcp server: a shallow embedding of `src/mm_mcp/cache.py`
(`CacheEntry`, `CacheManager`) and of the cache-facing operations of
`src/mm_mcp/mattermost.py` (`MattermostClient._is_auth_error`,
`_with_retry`, `_batch_get_users`, `_batch_get_channels`, `get_teams`,
`get_team_by_name`, `get_user`).

Modelling conventions:
* Python `dict` values become association lists with Python's update
  semantics (`dinsert` replaces the first occurrence of the key in
  place, otherwise appends); lookup (`dget`) returns the first match.
* Entity records (`dict[str, Any]`) become `Record := List (String ×
  String)`: the claims only inspect string-valued fields.
* `time.time()` becomes an explicit `now : ℤ` argument (instants and TTLs
  are arbitrary-precision integers; no claim depends on fractional
  instants); each Python
  method invocation is evaluated at a single instant.
* A fallible remote call becomes an oracle returning `Res α`
  (`ok`/`err msg`); `str(e)` is the `err` payload.
* Python truthiness of `None`-or-`dict` (`if cached:`) is `otruthy`:
  `none` and the empty record are falsy.
* Operations that mutate `self` take the state and return the updated
  state; the remote-fetch operations additionally return the list of
  ids for which a (wrapped) remote call was issued, so that fetch
  counts can be stated.
-/

/-- `Res α` is the outcome of a fallible Python call: a result or a
raised exception carrying its message `str(e)`. -/
inductive Res (α : Type) where
  | ok (a : α)
  | err (msg : String)
deriving Repr, DecidableEq

/-- Entity records: Python `dict[str, Any]` restricted to the
string-valued fields the claims inspect. -/
abbrev Record := List (String × String)

section Dict

variable {κ V : Type} [DecidableEq κ]

/-- Python `d.get(k)` on an association list: first binding wins. -/
def dget : List (κ × V) → κ → Option V
  | [], _ => none
  | (k', v) :: rest, k => if k' = k then some v else dget rest k

/-- Python `d[k] = v`: replace the first binding of `k` in place,
otherwise append a new binding (dict insertion order). -/
def dinsert : List (κ × V) → κ → V → List (κ × V)
  | [], k, v => [(k, v)]
  | (k', v') :: rest, k, v =>
      if k' = k then (k, v) :: rest else (k', v') :: dinsert rest k v

/-- Number of bindings of key `k` (a well-formed dict has at most one). -/
def dcount (m : List (κ × V)) (k : κ) : Nat :=
  (m.filter (fun p => p.1 = k)).length

end Dict

/-- Python truthiness of an optional record: `None` and `{}` are falsy. -/
def otruthy : Option Record → Bool
  | none => false
  | some r => !r.isEmpty

/-- `cache.py` `CacheEntry`: a value plus the absolute expiry instant
`time.time() + ttl` computed at construction. -/
structure CacheEntry where
  value : Record
  expires_at : ℤ
deriving Repr, DecidableEq

/-- `CacheEntry.is_expired`: `time.time() > self.expires_at`. -/
def CacheEntry.isExpired (e : CacheEntry) (now : ℤ) : Bool :=
  decide (now > e.expires_at)

/-- `cache.py` `CacheManager.__init__`: default TTL plus the six maps. -/
structure CacheManager where
  ttl : ℤ
  users : List (String × CacheEntry)
  teams : List (String × CacheEntry)
  team_names : List (String × CacheEntry)
  channels : List (String × CacheEntry)
  channel_names : List ((String × String) × CacheEntry)
  posts : List (String × CacheEntry)
deriving Repr, DecidableEq

/-- A fresh `CacheManager(ttl)`. -/
def emptyCache (ttl : ℤ) : CacheManager :=
  ⟨ttl, [], [], [], [], [], []⟩

/-- `CacheManager._cleanup_expired`: delete every entry whose expiry
instant has passed. -/
def cleanupExpired {κ : Type} (m : List (κ × CacheEntry)) (now : ℤ) :
    List (κ × CacheEntry) :=
  m.filter (fun p => !(p.2.isExpired now))

/-- The shared body of every `get_X`: lookup after the sweep, returning
the value only if present and not expired. -/
def liveLookup {κ : Type} [DecidableEq κ] (m : List (κ × CacheEntry))
    (now : ℤ) (k : κ) : Option Record :=
  match dget (cleanupExpired m now) k with
  | none => none
  | some e => if e.isExpired now then none else some e.value

namespace CacheManager

/-- `CacheManager.get_user`. -/
def getUser (c : CacheManager) (now : ℤ) (uid : String) :
    CacheManager × Option Record :=
  ({ c with users := cleanupExpired c.users now },
   liveLookup c.users now uid)

/-- `CacheManager.set_user` (no sweep in the source). -/
def setUser (c : CacheManager) (now : ℤ) (uid : String) (d : Record) :
    CacheManager :=
  { c with users := dinsert c.users uid ⟨d, now + c.ttl⟩ }

/-- `CacheManager.get_team`. -/
def getTeam (c : CacheManager) (now : ℤ) (tid : String) :
    CacheManager × Option Record :=
  ({ c with teams := cleanupExpired c.teams now },
   liveLookup c.teams now tid)

/-- `CacheManager.set_team`: primary write plus the name index when
`"name" in team_data`. -/
def setTeam (c : CacheManager) (now : ℤ) (tid : String) (d : Record) :
    CacheManager :=
  let c1 := { c with teams := dinsert c.teams tid ⟨d, now + c.ttl⟩ }
  match dget d "name" with
  | some nm =>
      { c1 with team_names := dinsert c1.team_names nm ⟨d, now + c.ttl⟩ }
  | none => c1

/-- `CacheManager.get_team_by_name`. -/
def getTeamByName (c : CacheManager) (now : ℤ) (nm : String) :
    CacheManager × Option Record :=
  ({ c with team_names := cleanupExpired c.team_names now },
   liveLookup c.team_names now nm)

/-- `CacheManager.get_channel`. -/
def getChannel (c : CacheManager) (now : ℤ) (cid : String) :
    CacheManager × Option Record :=
  ({ c with channels := cleanupExpired c.channels now },
   liveLookup c.channels now cid)

/-- `CacheManager.set_channel`: primary write plus the
`(team_id, name)` index when both fields are present. -/
def setChannel (c : CacheManager) (now : ℤ) (cid : String) (d : Record) :
    CacheManager :=
  let c1 := { c with channels := dinsert c.channels cid ⟨d, now + c.ttl⟩ }
  match dget d "team_id", dget d "name" with
  | some tId, some nm =>
      { c1 with
        channel_names := dinsert c1.channel_names (tId, nm) ⟨d, now + c.ttl⟩ }
  | _, _ => c1

/-- `CacheManager.get_channel_by_name`. -/
def getChannelByName (c : CacheManager) (now : ℤ) (tId nm : String) :
    CacheManager × Option Record :=
  ({ c with channel_names := cleanupExpired c.channel_names now },
   liveLookup c.channel_names now (tId, nm))

/-- `CacheManager.get_post`. -/
def getPost (c : CacheManager) (now : ℤ) (pid : String) :
    CacheManager × Option Record :=
  ({ c with posts := cleanupExpired c.posts now },
   liveLookup c.posts now pid)

/-- `CacheManager.set_post`. -/
def setPost (c : CacheManager) (now : ℤ) (pid : String) (d : Record) :
    CacheManager :=
  { c with posts := dinsert c.posts pid ⟨d, now + c.ttl⟩ }

/-- `CacheManager.clear`. -/
def clear (c : CacheManager) : CacheManager :=
  { c with users := [], teams := [], team_names := [],
           channels := [], channel_names := [], posts := [] }

end CacheManager

/-- `CacheManager.get_stats` result: one count per primary map. -/
structure CacheStats where
  users : Nat
  teams : Nat
  channels : Nat
  posts : Nat
deriving Repr, DecidableEq

/-- `CacheManager.get_stats`: the raw `len` of each primary map, with
no sweep and no expiry check. -/
def CacheManager.getStats (c : CacheManager) : CacheStats :=
  ⟨c.users.length, c.teams.length, c.channels.length, c.posts.length⟩

/-- Modelled from the spec (for comparison with `getStats`): the counts
of only the entries whose expiry timestamp has not passed at the call
instant. -/
def specLiveStats (c : CacheManager) (now : ℤ) : CacheStats :=
  ⟨(cleanupExpired c.users now).length,
   (cleanupExpired c.teams now).length,
   (cleanupExpired c.channels now).length,
   (cleanupExpired c.posts now).length⟩

/-- `MattermostClient._is_auth_error`: the fixed phrase list. -/
def authPatterns : List String :=
  ["session is invalid",
   "invalid or expired session",
   "session expired",
   "expired session",
   "invalid session",
   "unauthorized",
   "401",
   "authentication required",
   "token expired",
   "please login again"]

/-- Python `str.lower()`, computed on the character list (the library
`String.toLower` uses well-founded recursion, which the kernel cannot
evaluate; this definition agrees with it character by character). -/
def strToLower (s : String) : String :=
  String.mk (s.toList.map Char.toLower)

/-- Executable infix test on lists (`needle` occurs contiguously). -/
def listInfixOf (needle : List Char) : List Char → Bool
  | [] => needle.isEmpty
  | a :: rest => needle.isPrefixOf (a :: rest) || listInfixOf needle rest

/-- Python `needle in haystack` on strings. -/
def strContains (haystack needle : String) : Bool :=
  listInfixOf needle.toList haystack.toList

/-- `MattermostClient._is_auth_error`: lowercase the message and test
each phrase for substring containment. -/
def isAuthError (msg : String) : Bool :=
  authPatterns.any (fun phrase => strContains (strToLower msg) phrase)

/-- The combined message raised by `_with_retry` when the
reauthenticate-and-retry block itself raises. -/
def combinedMsg (orig retry : String) : String :=
  "Session expired and re-authentication failed. Original error: " ++
    orig ++ ". Retry error: " ++ retry

/-- Observable outcome of one invocation of a `_with_retry`-wrapped
operation: the result, the number of calls of the wrapped function, and
the number of `_authenticate` calls. -/
structure RunResult (α : Type) where
  result : Res α
  opCalls : Nat
  authCalls : Nat
deriving Repr, DecidableEq

/-- `MattermostClient._with_retry` applied to one invocation.
`op1` is the outcome of the first call of the wrapped function, `op2`
the outcome of the (at most one) retry, `auth` the outcome of
`self._authenticate()`, and `hasPasswordAuth` is
`self.config.has_password_auth`. -/
def withRetry {α : Type} (hasPasswordAuth : Bool) (op1 op2 : Res α)
    (auth : Res Unit) : RunResult α :=
  match op1 with
  | .ok a => ⟨.ok a, 1, 0⟩
  | .err m =>
      if isAuthError m && hasPasswordAuth then
        match auth with
        | .ok _ =>
            match op2 with
            | .ok a => ⟨.ok a, 2, 1⟩
            | .err m2 => ⟨.err (combinedMsg m m2), 2, 1⟩
        | .err am => ⟨.err (combinedMsg m am), 1, 1⟩
      else ⟨.err m, 1, 0⟩

/-- The fallback user record built by `_batch_get_users` on a failed
fetch: id, `user_` plus the first 8 characters of the id, blank names. -/
def fallbackUser (uid : String) : Record :=
  [("id", uid), ("username", "user_" ++ uid.take 8),
   ("first_name", ""), ("last_name", "")]

/-- The fallback channel record built by `_batch_get_channels` on a
failed fetch. -/
def fallbackChannel (cid : String) : Record :=
  [("id", cid), ("name", "channel_" ++ cid.take 8),
   ("display_name", "Unknown Channel")]

/-!
Client operations (`mattermost.py`). The only `MattermostClient` state
these operations read or write is `self.cache`, so they act on a
`CacheManager`; the remote driver (always invoked through
`_with_retry`) is an oracle giving the overall outcome of each wrapped
call, and each operation returns the list of ids for which such a
wrapped remote call was issued.
-/
namespace Client

/-- `MattermostClient.get_user`: the special id `"me"` is always
fetched fresh and never cached; any other id is looked up in the cache
(Python truthiness on the result), fetched on a miss, and the fetched
record is cached under `user["id"]` when that field is present. -/
def getUser (cache : CacheManager) (now : ℤ)
    (fetch : String → Res Record) (uid : String) :
    CacheManager × Res Record × List String :=
  if uid = "me" then (cache, fetch "me", ["me"])
  else
    let s := cache.getUser now uid
    if otruthy s.2 then (s.1, .ok (s.2.getD []), [])
    else
      match fetch uid with
      | .ok u =>
          ((match dget u "id" with
            | some i => s.1.setUser now i u
            | none => s.1), .ok u, [uid])
      | .err m => (s.1, .err m, [uid])

/-- The first loop of `_batch_get_users`: per input occurrence, a cache
probe that either fills the output dict or appends the id to
`ids_to_fetch` (duplicates kept). -/
def batchUsersScan (now : ℤ) :
    CacheManager → List String → List (String × Record) → List String →
    CacheManager × List (String × Record) × List String
  | cache, [], out, toFetch => (cache, out, toFetch)
  | cache, uid :: rest, out, toFetch =>
      let s := cache.getUser now uid
      if otruthy s.2 then
        batchUsersScan now s.1 rest (dinsert out uid (s.2.getD [])) toFetch
      else
        batchUsersScan now s.1 rest out (toFetch ++ [uid])

/-- The second loop of `_batch_get_users`: each miss goes through
`get_user`; an exception is absorbed into a fallback record. -/
def batchUsersFetch (now : ℤ) (fetch : String → Res Record) :
    CacheManager → List String → List (String × Record) → List String →
    CacheManager × List (String × Record) × List String
  | cache, [], out, trace => (cache, out, trace)
  | cache, uid :: rest, out, trace =>
      let s := getUser cache now fetch uid
      match s.2.1 with
      | .ok u =>
          batchUsersFetch now fetch s.1 rest (dinsert out uid u)
            (trace ++ s.2.2)
      | .err _ =>
          batchUsersFetch now fetch s.1 rest
            (dinsert out uid (fallbackUser uid)) (trace ++ s.2.2)

/-- `MattermostClient._batch_get_users`. -/
def batchGetUsers (cache : CacheManager) (now : ℤ)
    (fetch : String → Res Record) (ids : List String) :
    CacheManager × List (String × Record) × List String :=
  let s := batchUsersScan now cache ids [] []
  batchUsersFetch now fetch s.1 s.2.2 s.2.1 []

/-- The first loop of `_batch_get_channels` (cache probe per
occurrence, duplicates kept in `ids_to_fetch`). -/
def batchChansScan (now : ℤ) :
    CacheManager → List String → List (String × Record) → List String →
    CacheManager × List (String × Record) × List String
  | cache, [], out, toFetch => (cache, out, toFetch)
  | cache, cid :: rest, out, toFetch =>
      let s := cache.getChannel now cid
      if otruthy s.2 then
        batchChansScan now s.1 rest (dinsert out cid (s.2.getD [])) toFetch
      else
        batchChansScan now s.1 rest out (toFetch ++ [cid])

/-- The second loop of `_batch_get_channels`: every miss occurrence is
fetched directly through the wrapped driver call (no cache re-check);
a success is cached under the requested id, a failure becomes a
fallback record in the output only. -/
def batchChansFetch (now : ℤ) (fetch : String → Res Record) :
    CacheManager → List String → List (String × Record) → List String →
    CacheManager × List (String × Record) × List String
  | cache, [], out, trace => (cache, out, trace)
  | cache, cid :: rest, out, trace =>
      match fetch cid with
      | .ok ch =>
          batchChansFetch now fetch (cache.setChannel now cid ch) rest
            (dinsert out cid ch) (trace ++ [cid])
      | .err _ =>
          batchChansFetch now fetch cache rest
            (dinsert out cid (fallbackChannel cid)) (trace ++ [cid])

/-- `MattermostClient._batch_get_channels`. -/
def batchGetChannels (cache : CacheManager) (now : ℤ)
    (fetch : String → Res Record) (ids : List String) :
    CacheManager × List (String × Record) × List String :=
  let s := batchChansScan now cache ids [] []
  batchChansFetch now fetch s.1 s.2.2 s.2.1 []

/-- The caching loop of `get_teams`: every fetched team that carries an
`"id"` field is written through `set_team`. -/
def cacheTeams (now : ℤ) : CacheManager → List Record → CacheManager
  | cache, [] => cache
  | cache, t :: rest =>
      cacheTeams now
        (match dget t "id" with
         | some i => cache.setTeam now i t
         | none => cache) rest

/-- `MattermostClient.get_teams`: fetch the full team list through the
retry wrapper and cache every team with an id. -/
def getTeams (cache : CacheManager) (now : ℤ)
    (fetchTeams : Res (List Record)) :
    CacheManager × Res (List Record) :=
  match fetchTeams with
  | .ok ts => (cacheTeams now cache ts, .ok ts)
  | .err m => (cache, .err m)

/-- An ASCII single-quote character, written numerically. -/
def squote : String := String.mk [Char.ofNat 39]

/-- The message of the `ValueError` raised by `get_team_by_name`. -/
def teamNotFoundMsg (nm : String) : String :=
  "Team " ++ squote ++ nm ++ squote ++ " not found"

/-- `MattermostClient.get_team_by_name`: name-index probe (Python
truthiness), then a full `get_teams` fetch and a linear scan for an
exact name match; no match raises `ValueError`. The `Nat` component
counts remote (team-list) fetches. -/
def getTeamByName (cache : CacheManager) (now : ℤ)
    (fetchTeams : Res (List Record)) (nm : String) :
    CacheManager × Res Record × Nat :=
  let s := cache.getTeamByName now nm
  if otruthy s.2 then (s.1, .ok (s.2.getD []), 0)
  else
    match getTeams s.1 now fetchTeams with
    | (cache2, .err m) => (cache2, .err m, 1)
    | (cache2, .ok ts) =>
        match ts.find? (fun t => dget t "name" == some nm) with
        | some t => (cache2, .ok t, 1)
        | none => (cache2, .err (teamNotFoundMsg nm), 1)

end Client

/-! ### Dictionary lemmas -/

section DictLemmas

variable {κ V : Type} [DecidableEq κ]

theorem dget_dinsert_self (m : List (κ × V)) (k : κ) (v : V) :
    dget (dinsert m k v) k = some v := by
  induction m with
  | nil => simp [dinsert, dget]
  | cons p rest ih =>
      obtain ⟨k0, v0⟩ := p
      by_cases h : k0 = k
      · simp [dinsert, dget, h]
      · simp [dinsert, dget, h, ih]

theorem dget_dinsert_ne (m : List (κ × V)) (k' k : κ) (v : V) (h : k' ≠ k) :
    dget (dinsert m k' v) k = dget m k := by
  induction m with
  | nil => simp [dinsert, dget, h]
  | cons p rest ih =>
      obtain ⟨k0, v0⟩ := p
      by_cases h0 : k0 = k'
      · subst h0
        simp [dinsert, dget, h]
      · by_cases h1 : k0 = k
        · subst h1
          simp [dinsert, dget, h0]
        · simp [dinsert, dget, h0, h1, ih]

theorem dget_dinsert_isSome (m : List (κ × V)) (k' k : κ) (v : V)
    (h : (dget m k).isSome ∨ k' = k) :
    (dget (dinsert m k' v) k).isSome := by
  by_cases hk : k' = k
  · subst hk; simp [dget_dinsert_self]
  · rcases h with h | h
    · simpa [dget_dinsert_ne m k' k v hk] using h
    · exact absurd h hk

theorem dget_filter_none (m : List (κ × V)) (p : κ × V → Bool) (k : κ)
    (h : dget m k = none) : dget (m.filter p) k = none := by
  induction m with
  | nil => simp [dget]
  | cons q rest ih =>
      obtain ⟨k0, v0⟩ := q
      by_cases h0 : k0 = k
      · rw [dget, if_pos h0] at h
        exact absurd h (by simp)
      · rw [dget, if_neg h0] at h
        cases hp : p (k0, v0) <;>
          simp [List.filter, hp, dget, h0, ih h]

theorem dcount_cons (a : κ × V) (rest : List (κ × V)) (k : κ) :
    dcount (a :: rest) k = (if a.1 = k then 1 else 0) + dcount rest k := by
  by_cases h : a.1 = k <;> simp [dcount, List.filter, h, Nat.add_comm]

theorem dcount_dinsert (m : List (κ × V)) (k : κ) (v : V)
    (h : dcount m k ≤ 1) : dcount (dinsert m k v) k = 1 := by
  induction m with
  | nil => simp [dinsert, dcount, List.filter]
  | cons p rest ih =>
      obtain ⟨k0, v0⟩ := p
      rw [dcount_cons] at h
      by_cases h0 : k0 = k
      · rw [if_pos h0] at h
        have hrest : dcount rest k = 0 := by omega
        rw [dinsert, if_pos h0, dcount_cons]
        simp [hrest]
      · rw [if_neg h0] at h
        rw [dinsert, if_neg h0, dcount_cons, if_neg h0, ih (by omega)]

end DictLemmas

/-! ### Cache sweep lemmas -/

theorem cleanup_idem {κ : Type} (m : List (κ × CacheEntry)) (now : ℤ) :
    cleanupExpired (cleanupExpired m now) now = cleanupExpired m now := by
  simp [cleanupExpired, List.filter_filter]

theorem dget_cleanup_none {κ : Type} [DecidableEq κ]
    (m : List (κ × CacheEntry)) (now : ℤ) (k : κ)
    (h : dget m k = none) : dget (cleanupExpired m now) k = none :=
  dget_filter_none m _ k h

theorem dget_cleanup_live {κ : Type} [DecidableEq κ]
    (m : List (κ × CacheEntry)) (now : ℤ) (k : κ) (e : CacheEntry)
    (h : dget m k = some e) (hlive : e.isExpired now = false) :
    dget (cleanupExpired m now) k = some e := by
  induction m with
  | nil => simp [dget] at h
  | cons p rest ih =>
      obtain ⟨k0, e0⟩ := p
      by_cases h0 : k0 = k
      · rw [dget, if_pos h0] at h
        injection h with h
        subst h
        simp [cleanupExpired, List.filter, hlive, dget, h0]
      · rw [dget, if_neg h0] at h
        cases hp : e0.isExpired now <;>
          simpa [cleanupExpired, List.filter, hp, dget, h0] using ih h

theorem liveLookup_cleanup {κ : Type} [DecidableEq κ]
    (m : List (κ × CacheEntry)) (now : ℤ) (k : κ) :
    liveLookup (cleanupExpired m now) now k = liveLookup m now k := by
  simp [liveLookup, cleanup_idem]

theorem liveLookup_of_live {κ : Type} [DecidableEq κ]
    (m : List (κ × CacheEntry)) (now : ℤ) (k : κ) (e : CacheEntry)
    (h : dget m k = some e) (hlive : e.isExpired now = false) :
    liveLookup m now k = some e.value := by
  simp [liveLookup, dget_cleanup_live m now k e h hlive, hlive]

theorem liveLookup_none {κ : Type} [DecidableEq κ]
    (m : List (κ × CacheEntry)) (now : ℤ) (k : κ)
    (h : dget m k = none) : liveLookup m now k = none := by
  simp [liveLookup, dget_cleanup_none m now k h]

theorem dget_ne_nil {κ V : Type} [DecidableEq κ]
    (r : List (κ × V)) (k : κ) (x : V) (h : dget r k = some x) :
    r ≠ [] := by
  intro hr
  subst hr
  simp [dget] at h

/-! ### C2: what `stats()` counts -/

/-- C2, counterexample: an entry that is expired at the call instant
but has not been swept is still counted by `get_stats`. The cache holds
one user entry written at time 0 with TTL 1; at instant 2 the entry is
expired, yet `get_stats` reports one user while the count of
non-expired entries is zero. -/
theorem c2_stats_counts_expired :
    (CacheManager.getStats
        ((emptyCache 1).setUser 0 "u1" [("id", "u1")])).users = 1
    ∧ (specLiveStats ((emptyCache 1).setUser 0 "u1" [("id", "u1")]) 2).users = 0
    ∧ CacheManager.getStats ((emptyCache 1).setUser 0 "u1" [("id", "u1")])
        ≠ specLiveStats ((emptyCache 1).setUser 0 "u1" [("id", "u1")]) 2 := by
  decide

/-- C2, amended: `get_stats` returns the raw sizes of the four primary
maps; this equals the count of non-expired entries only when no entry
of those maps is expired (e.g. right after a get has swept them) —
expired but not-yet-swept entries are included in the counts. -/
theorem c2_stats_amended (c : CacheManager) (now : ℤ)
    (hu : cleanupExpired c.users now = c.users)
    (ht : cleanupExpired c.teams now = c.teams)
    (hc : cleanupExpired c.channels now = c.channels)
    (hp : cleanupExpired c.posts now = c.posts) :
    c.getStats = specLiveStats c now := by
  simp [CacheManager.getStats, specLiveStats, hu, ht, hc, hp]

/-- C2, witness for the amended theorem at a concrete fresh cache. -/
theorem c2_stats_amended_witness :
    CacheManager.getStats ((emptyCache 1).setUser 0 "u1" [("id", "u1")])
      = specLiveStats ((emptyCache 1).setUser 0 "u1" [("id", "u1")]) 0 :=
  c2_stats_amended ((emptyCache 1).setUser 0 "u1" [("id", "u1")]) 0
    (by decide) (by decide) (by decide) (by decide)

/-! ### C3: which operations sweep -/

/-- C3, counterexample: `set_user` performs no sweep. Writing `"u2"` at
instant 5 into a map whose `"u1"` entry expired at instant 1 leaves the
expired `"u1"` entry in the map, so the target map of a set does
contain an expired entry right after the call. -/
theorem c3_set_leaves_expired :
    ((((emptyCache 1).setUser 0 "u1" [("id", "u1")]).setUser 5 "u2"
          [("id", "u2")]).users.filter (fun p => p.2.isExpired 5)).length = 1
    ∧ (1 : Nat) ≠ 0 := by
  decide

/-- C3, amended: every get operation sweeps its target map before the
lookup (afterwards the map contains no expired entries), but set
operations write without sweeping — after a `set_X` call the target map
is the old map with the new binding and may retain expired entries
under other keys. -/
theorem c3_sweep_amended :
    (∀ (c : CacheManager) (now : ℤ) (k : String),
        cleanupExpired ((c.getUser now k).1.users) now
            = (c.getUser now k).1.users
        ∧ cleanupExpired ((c.getTeam now k).1.teams) now
            = (c.getTeam now k).1.teams
        ∧ cleanupExpired ((c.getTeamByName now k).1.team_names) now
            = (c.getTeamByName now k).1.team_names
        ∧ cleanupExpired ((c.getChannel now k).1.channels) now
            = (c.getChannel now k).1.channels
        ∧ cleanupExpired ((c.getPost now k).1.posts) now
            = (c.getPost now k).1.posts)
    ∧ (∀ (c : CacheManager) (now : ℤ) (tId nm : String),
        cleanupExpired ((c.getChannelByName now tId nm).1.channel_names) now
            = (c.getChannelByName now tId nm).1.channel_names)
    ∧ (∀ (c : CacheManager) (now : ℤ) (k : String) (v : Record),
        (c.setUser now k v).users = dinsert c.users k ⟨v, now + c.ttl⟩
        ∧ (c.setPost now k v).posts = dinsert c.posts k ⟨v, now + c.ttl⟩)
    ∧ (∃ (c : CacheManager) (now : ℤ) (k : String) (v : Record),
        ((c.setUser now k v).users.any (fun p => p.2.isExpired now)) = true) := by
  refine ⟨?_, ?_, ?_, ?_⟩
  · intro c now k
    exact ⟨cleanup_idem _ _, cleanup_idem _ _, cleanup_idem _ _,
      cleanup_idem _ _, cleanup_idem _ _⟩
  · intro c now tId nm
    exact cleanup_idem _ _
  · intro c now k v
    exact ⟨rfl, rfl⟩
  · exact ⟨(emptyCache 1).setUser 0 "u1" [], 5, "u2", [], by decide⟩

/-! ### C4 and C5: the retry/reauthentication wrapper -/

/-- C4, counterexample: when the first call fails with an auth-related
message and credential re-login is available but the reauthentication
itself fails, the wrapper does not retry the original operation at all
(one underlying call, not the two the claim requires). -/
theorem c4_retry_skipped_when_reauth_fails :
    (withRetry true (Res.err "401") (Res.ok (0 : Nat))
        (Res.err "login down")).opCalls = 1
    ∧ (withRetry true (Res.err "401") (Res.ok (0 : Nat))
        (Res.err "login down")).opCalls ≠ 2
    ∧ isAuthError "401" = true := by
  decide

/-- C4, amended: on an auth-classified first failure with
credential-based re-login available, the wrapper performs exactly one
reauthentication attempt and never more than one retry; if the
reauthentication succeeds it retries the original operation exactly
once, returning the retry result on success and a combined error
embedding the original and retry failure messages otherwise; if the
reauthentication fails, no retry is attempted and the combined error
embeds the original failure and the reauthentication failure. -/
theorem c4_one_shot_retry_amended {α : Type} (op2 : Res α)
    (auth : Res Unit) (m : String) (hauth : isAuthError m = true) :
    (withRetry true (Res.err m) op2 auth).authCalls = 1
    ∧ (withRetry true (Res.err m) op2 auth).opCalls ≤ 2
    ∧ (auth = .ok () →
        (withRetry true (Res.err m) op2 auth).opCalls = 2
        ∧ (∀ a, op2 = .ok a →
            (withRetry true (Res.err m) op2 auth).result = .ok a)
        ∧ (∀ m2, op2 = .err m2 →
            (withRetry true (Res.err m) op2 auth).result
              = .err (combinedMsg m m2)))
    ∧ (∀ am, auth = .err am →
        (withRetry true (Res.err m) op2 auth).opCalls = 1
        ∧ (withRetry true (Res.err m) op2 auth).result
          = .err (combinedMsg m am)) := by
  cases auth with
  | ok u =>
      cases op2 with
      | ok a => simp [withRetry, hauth]
      | err m2 => simp [withRetry, hauth]
  | err am =>
      cases op2 with
      | ok a => simp [withRetry, hauth]
      | err m2 => simp [withRetry, hauth]

/-- C4, witness: concrete auth failure "Session is invalid", successful
reauthentication, successful retry returning 42. -/
theorem c4_one_shot_retry_amended_witness :
    (withRetry true (Res.err "Session is invalid") (Res.ok (42 : Nat))
        (Res.ok ())).authCalls = 1
    ∧ (withRetry true (Res.err "Session is invalid") (Res.ok (42 : Nat))
        (Res.ok ())).opCalls = 2
    ∧ (withRetry true (Res.err "Session is invalid") (Res.ok (42 : Nat))
        (Res.ok ())).result = .ok 42 := by
  have h := c4_one_shot_retry_amended (Res.ok (42 : Nat)) (Res.ok ())
    "Session is invalid" (by decide)
  exact ⟨h.1, (h.2.2.1 rfl).1, (h.2.2.1 rfl).2.1 42 rfl⟩

/-- C5: a failure that is not auth-classified, or any failure when
credential re-login is unavailable, is propagated unchanged after
exactly one underlying call and with no reauthentication. -/
theorem c5_non_auth_error_propagates {α : Type} (op2 : Res α)
    (auth : Res Unit) (hasPW : Bool) (m : String)
    (h : isAuthError m = false ∨ hasPW = false) :
    withRetry hasPW (Res.err m) op2 auth = ⟨.err m, 1, 0⟩ := by
  rcases h with h | h <;> simp [withRetry, h]

/-- C5, witness: the spec scenario "Network timeout" (not
auth-classified) with password auth available. -/
theorem c5_non_auth_error_propagates_witness :
    withRetry true (Res.err "Network timeout") (Res.ok (0 : Nat))
        (Res.ok ()) = ⟨.err "Network timeout", 1, 0⟩
    ∧ isAuthError "Network timeout" = false :=
  ⟨c5_non_auth_error_propagates (Res.ok (0 : Nat)) (Res.ok ()) true
      "Network timeout" (Or.inl (by decide)),
   by decide⟩

/-! ### C8: the secondary name indices -/

/-- C8: a team write by id also writes the name index with the same
value and the same expiry exactly when the record carries `"name"`; a
channel write by id also writes the `(team_id, name)` index with the
same value and expiry exactly when the record carries both `"team_id"`
and `"name"`; when the fields are absent only the primary entry is
written (and no error is raised — the operations are total). -/
theorem c8_secondary_name_index (c : CacheManager) (now : ℤ)
    (tid cid : String) (td cd : Record) :
    (∀ nm, dget td "name" = some nm →
        dget (c.setTeam now tid td).team_names nm = some ⟨td, now + c.ttl⟩
        ∧ dget (c.setTeam now tid td).teams tid = some ⟨td, now + c.ttl⟩)
    ∧ (dget td "name" = none →
        (c.setTeam now tid td).team_names = c.team_names
        ∧ (c.setTeam now tid td).teams = dinsert c.teams tid ⟨td, now + c.ttl⟩)
    ∧ (∀ tId nm, dget cd "team_id" = some tId → dget cd "name" = some nm →
        dget (c.setChannel now cid cd).channel_names (tId, nm)
            = some ⟨cd, now + c.ttl⟩
        ∧ dget (c.setChannel now cid cd).channels cid = some ⟨cd, now + c.ttl⟩)
    ∧ ((dget cd "team_id" = none ∨ dget cd "name" = none) →
        (c.setChannel now cid cd).channel_names = c.channel_names
        ∧ (c.setChannel now cid cd).channels
            = dinsert c.channels cid ⟨cd, now + c.ttl⟩) := by
  refine ⟨?_, ?_, ?_, ?_⟩
  · intro nm h
    simp [CacheManager.setTeam, h, dget_dinsert_self]
  · intro h
    simp [CacheManager.setTeam, h]
  · intro tId nm h1 h2
    simp [CacheManager.setChannel, h1, h2, dget_dinsert_self]
  · intro h
    rcases h with h | h
    · cases h2 : dget cd "name" <;> simp [CacheManager.setChannel, h, h2]
    · cases h1 : dget cd "team_id" <;> simp [CacheManager.setChannel, h, h1]

/-- C8, witness: a team record with a name, a team record without one,
and a channel record with both index fields. -/
theorem c8_secondary_name_index_witness :
    dget ((emptyCache 300).setTeam 0 "t1"
        [("id", "t1"), ("name", "eng")]).team_names "eng"
      = some ⟨[("id", "t1"), ("name", "eng")], 300⟩
    ∧ ((emptyCache 300).setTeam 0 "t2" [("id", "t2")]).team_names = []
    ∧ dget ((emptyCache 300).setChannel 0 "c1"
        [("id", "c1"), ("team_id", "t1"), ("name", "general")]).channel_names
        ("t1", "general")
      = some ⟨[("id", "c1"), ("team_id", "t1"), ("name", "general")], 300⟩ := by
  refine ⟨?_, ?_, ?_⟩
  · have h := (c8_secondary_name_index (emptyCache 300) 0 "t1" "c1"
      [("id", "t1"), ("name", "eng")] []).1 "eng" (by decide)
    exact h.1
  · have h := (c8_secondary_name_index (emptyCache 300) 0 "t2" "c1"
      [("id", "t2")] []).2.1 (by decide)
    exact h.1
  · have h := (c8_secondary_name_index (emptyCache 300) 0 "t1" "c1" []
      [("id", "c1"), ("team_id", "t1"), ("name", "general")]).2.2.1
      "t1" "general" (by decide) (by decide)
    exact h.1

/-! ### C9: set/get round trip and overwrite -/

/-- C9: with TTL `t > 0`, a `set_user k v` at `now1` followed by a
`get_user k` at `now2` with less than `t` elapsed returns `v`; and two
successive sets of the same key leave exactly one binding for that key,
holding the second value, and that entry is live at the instant of the
second set. -/
theorem c9_cache_roundtrip (c : CacheManager) (k : String)
    (v v1 v2 : Record) (now1 now2 nowa nowb : ℤ)
    (httl : 0 < c.ttl) (hlt : now2 - now1 < c.ttl) (hle : now1 ≤ now2)
    (hcount : dcount c.users k ≤ 1) :
    ((c.setUser now1 k v).getUser now2 k).2 = some v
    ∧ dcount (((c.setUser nowa k v1).setUser nowb k v2).users) k = 1
    ∧ dget (((c.setUser nowa k v1).setUser nowb k v2).users) k
        = some ⟨v2, nowb + c.ttl⟩
    ∧ (⟨v2, nowb + c.ttl⟩ : CacheEntry).isExpired nowb = false := by
  refine ⟨?_, ?_, ?_, ?_⟩
  · have hset : (c.setUser now1 k v).users
        = dinsert c.users k ⟨v, now1 + c.ttl⟩ := rfl
    have hlive : (⟨v, now1 + c.ttl⟩ : CacheEntry).isExpired now2 = false := by
      simp [CacheEntry.isExpired]
      omega
    have hdg : dget (c.setUser now1 k v).users k
        = some ⟨v, now1 + c.ttl⟩ := by
      rw [hset, dget_dinsert_self]
    simp [CacheManager.getUser,
      liveLookup_of_live _ now2 k _ hdg hlive]
  · have h1 : dcount (dinsert c.users k (⟨v1, nowa + c.ttl⟩ : CacheEntry)) k
        = 1 := dcount_dinsert c.users k _ hcount
    exact dcount_dinsert _ k _ (by rw [show ((c.setUser nowa k v1).users)
      = dinsert c.users k ⟨v1, nowa + c.ttl⟩ from rfl]; omega)
  · have : ((c.setUser nowa k v1).setUser nowb k v2).users
        = dinsert (dinsert c.users k ⟨v1, nowa + c.ttl⟩) k
            ⟨v2, nowb + c.ttl⟩ := rfl
    rw [this, dget_dinsert_self]
  · simp [CacheEntry.isExpired]
    omega

/-- C9, witness: TTL 10, set at 0, get at 5; overwrite at 0 then 3. -/
theorem c9_cache_roundtrip_witness :
    (((emptyCache 10).setUser 0 "k" [("id", "k")]).getUser 5 "k").2
        = some [("id", "k")]
    ∧ dcount ((((emptyCache 10).setUser 0 "k" [("a", "1")]).setUser 3 "k"
        [("a", "2")]).users) "k" = 1
    ∧ dget ((((emptyCache 10).setUser 0 "k" [("a", "1")]).setUser 3 "k"
        [("a", "2")]).users) "k" = some ⟨[("a", "2")], 13⟩ := by
  have h := c9_cache_roundtrip (emptyCache 10) "k" [("id", "k")]
    [("a", "1")] [("a", "2")] 0 5 0 3 (by decide) (by decide) (by decide)
    (by decide)
  exact ⟨h.1, h.2.1, h.2.2.1⟩

/-! ### C10: `get_user` and the special id `"me"` -/

/-- C10: `get_user("me")` bypasses the cache in both directions — the
result is always the fresh fetch outcome and the entire cache state
(all maps) is returned unchanged; for any other id, on a cache miss a
successful fetch is written back under the fetched record's own `"id"`
field when present, and not written at all when the record has no
`"id"` field. -/
theorem c10_get_user_me_bypass (cache : CacheManager) (now : ℤ)
    (fetch : String → Res Record) (uid : String) (u : Record) :
    Client.getUser cache now fetch "me" = (cache, fetch "me", ["me"])
    ∧ (uid ≠ "me" → otruthy (cache.getUser now uid).2 = false →
        fetch uid = .ok u →
        (Client.getUser cache now fetch uid).2.1 = .ok u
        ∧ (∀ i, dget u "id" = some i →
            (Client.getUser cache now fetch uid).1.users
              = dinsert (cleanupExpired cache.users now) i ⟨u, now + cache.ttl⟩)
        ∧ (dget u "id" = none →
            (Client.getUser cache now fetch uid).1.users
              = cleanupExpired cache.users now)) := by
  constructor
  · simp [Client.getUser]
  · intro hne hmiss hok
    have hbody : Client.getUser cache now fetch uid
        = (match dget u "id" with
           | some i => (cache.getUser now uid).1.setUser now i u
           | none => (cache.getUser now uid).1, .ok u, [uid]) := by
      rw [Client.getUser, if_neg hne, if_neg (by simp [hmiss]), hok]
    refine ⟨?_, ?_, ?_⟩
    · rw [hbody]
    · intro i hi
      rw [hbody]
      simp [hi, CacheManager.setUser, CacheManager.getUser]
    · intro hnone
      rw [hbody]
      simp [hnone, CacheManager.getUser]

/-- C10, witness: a cache containing an entry for `"me"` that the
`"me"` path ignores, and a normal miss that caches under the record's
id. -/
theorem c10_get_user_me_bypass_witness :
    Client.getUser ((emptyCache 300).setUser 0 "me" [("id", "me")]) 1
        (fun v => Res.ok [("id", v), ("username", "x")]) "me"
      = (((emptyCache 300).setUser 0 "me" [("id", "me")]),
         Res.ok [("id", "me"), ("username", "x")], ["me"])
    ∧ (Client.getUser (emptyCache 300) 0
        (fun v => Res.ok [("id", v), ("username", "x")]) "u1").1.users
      = dinsert [] "u1" ⟨[("id", "u1"), ("username", "x")], 300⟩ := by
  constructor
  · exact (c10_get_user_me_bypass
      ((emptyCache 300).setUser 0 "me" [("id", "me")]) 1
      (fun v => Res.ok [("id", v), ("username", "x")]) "u1" []).1
  · have h := (c10_get_user_me_bypass (emptyCache 300) 0
      (fun v => Res.ok [("id", v), ("username", "x")]) "u1"
      [("id", "u1"), ("username", "x")]).2
      (by decide) (by decide) (by decide)
    exact h.2.1 "u1" (by decide)

/-! ### Lemmas about `set_team` and the `get_teams` caching loop -/

theorem setTeam_ttl (c : CacheManager) (now : ℤ) (tid : String)
    (d : Record) : (c.setTeam now tid d).ttl = c.ttl := by
  cases h : dget d "name" <;> simp [CacheManager.setTeam, h]

theorem setTeam_teams (c : CacheManager) (now : ℤ) (tid : String)
    (d : Record) :
    (c.setTeam now tid d).teams = dinsert c.teams tid ⟨d, now + c.ttl⟩ := by
  cases h : dget d "name" <;> simp [CacheManager.setTeam, h]

theorem setTeam_team_names (c : CacheManager) (now : ℤ) (tid : String)
    (d : Record) :
    (c.setTeam now tid d).team_names
      = match dget d "name" with
        | some nm => dinsert c.team_names nm ⟨d, now + c.ttl⟩
        | none => c.team_names := by
  cases h : dget d "name" <;> simp [CacheManager.setTeam, h]

theorem cacheTeams_ttl (now : ℤ) :
    ∀ (ts : List Record) (c : CacheManager),
      (Client.cacheTeams now c ts).ttl = c.ttl := by
  intro ts
  induction ts with
  | nil => intro c; rfl
  | cons t2 rest ih =>
      intro c
      rw [Client.cacheTeams]
      cases h : dget t2 "id" <;> simp [h, ih, setTeam_ttl]

theorem cacheTeams_dget_teams (now : ℤ) (t : Record) (tid : String) :
    ∀ (ts : List Record) (c : CacheManager),
      (∀ t2 ∈ ts, dget t2 "id" = some tid → t2 = t) →
      ((t ∈ ts ∧ dget t "id" = some tid)
        ∨ dget c.teams tid = some ⟨t, now + c.ttl⟩) →
      dget (Client.cacheTeams now c ts).teams tid = some ⟨t, now + c.ttl⟩ := by
  intro ts
  induction ts with
  | nil =>
      intro c _ hdisj
      rcases hdisj with ⟨hmem, _⟩ | hdget
      · simp at hmem
      · exact hdget
  | cons t2 rest ih =>
      intro c huniq hdisj
      have huniq' : ∀ t3 ∈ rest, dget t3 "id" = some tid → t3 = t :=
        fun t3 h3 => huniq t3 (List.mem_cons_of_mem _ h3)
      cases hdg2 : dget t2 "id" with
      | none =>
          rw [Client.cacheTeams, hdg2]
          refine ih c huniq' ?_
          rcases hdisj with ⟨hmem, hid⟩ | hdget
          · rcases List.mem_cons.mp hmem with heq | hmem'
            · subst heq
              rw [hid] at hdg2
              exact absurd hdg2 (by simp)
            · exact Or.inl ⟨hmem', hid⟩
          · exact Or.inr hdget
      | some i =>
          rw [Client.cacheTeams, hdg2]
          have httl : (c.setTeam now i t2).ttl = c.ttl := setTeam_ttl c now i t2
          rw [← httl]
          refine ih (c.setTeam now i t2) huniq' ?_
          rcases hdisj with ⟨hmem, hid⟩ | hdget
          · rcases List.mem_cons.mp hmem with heq | hmem'
            · subst heq
              rw [hid] at hdg2
              injection hdg2 with hi
              subst hi
              refine Or.inr ?_
              rw [setTeam_teams, httl, dget_dinsert_self]
            · exact Or.inl ⟨hmem', hid⟩
          · refine Or.inr ?_
            by_cases hi : i = tid
            · subst hi
              have ht2 : t2 = t := huniq t2 (List.mem_cons_self _ _) hdg2
              subst ht2
              rw [setTeam_teams, httl, dget_dinsert_self]
            · rw [setTeam_teams, httl, dget_dinsert_ne _ i tid _ hi]
              exact hdget

theorem cacheTeams_dget_names (now : ℤ) (t : Record) (nm : String) :
    ∀ (ts : List Record) (c : CacheManager),
      (∀ t2 ∈ ts, dget t2 "name" = some nm → t2 = t) →
      ((t ∈ ts ∧ (∃ i, dget t "id" = some i) ∧ dget t "name" = some nm)
        ∨ dget c.team_names nm = some ⟨t, now + c.ttl⟩) →
      dget (Client.cacheTeams now c ts).team_names nm
        = some ⟨t, now + c.ttl⟩ := by
  intro ts
  induction ts with
  | nil =>
      intro c _ hdisj
      rcases hdisj with ⟨hmem, _⟩ | hdget
      · simp at hmem
      · exact hdget
  | cons t2 rest ih =>
      intro c huniq hdisj
      have huniq' : ∀ t3 ∈ rest, dget t3 "name" = some nm → t3 = t :=
        fun t3 h3 => huniq t3 (List.mem_cons_of_mem _ h3)
      cases hdg2 : dget t2 "id" with
      | none =>
          rw [Client.cacheTeams, hdg2]
          refine ih c huniq' ?_
          rcases hdisj with ⟨hmem, ⟨i, hid⟩, hnm⟩ | hdget
          · rcases List.mem_cons.mp hmem with heq | hmem'
            · subst heq
              rw [hid] at hdg2
              exact absurd hdg2 (by simp)
            · exact Or.inl ⟨hmem', ⟨i, hid⟩, hnm⟩
          · exact Or.inr hdget
      | some i =>
          rw [Client.cacheTeams, hdg2]
          have httl : (c.setTeam now i t2).ttl = c.ttl := setTeam_ttl c now i t2
          rw [← httl]
          refine ih (c.setTeam now i t2) huniq' ?_
          cases hnm2 : dget t2 "name" with
          | none =>
              have hnames : (c.setTeam now i t2).team_names = c.team_names := by
                rw [setTeam_team_names, hnm2]
              rcases hdisj with ⟨hmem, hex, hnm⟩ | hdget
              · rcases List.mem_cons.mp hmem with heq | hmem'
                · subst heq
                  rw [hnm] at hnm2
                  exact absurd hnm2 (by simp)
                · exact Or.inl ⟨hmem', hex, hnm⟩
              · refine Or.inr ?_
                rw [hnames, httl]
                exact hdget
          | some nm2 =>
              have hnames : (c.setTeam now i t2).team_names
                  = dinsert c.team_names nm2 ⟨t2, now + c.ttl⟩ := by
                rw [setTeam_team_names, hnm2]
              by_cases heq : nm2 = nm
              · subst heq
                have ht2 : t2 = t := huniq t2 (List.mem_cons_self _ _) hnm2
                subst ht2
                refine Or.inr ?_
                rw [hnames, httl, dget_dinsert_self]
              · rcases hdisj with ⟨hmem, hex, hnm⟩ | hdget
                · rcases List.mem_cons.mp hmem with heq' | hmem'
                  · subst heq'
                    rw [hnm] at hnm2
                    injection hnm2 with h
                    exact absurd h.symm heq
                  · exact Or.inl ⟨hmem', hex, hnm⟩
                · refine Or.inr ?_
                  rw [hnames, httl, dget_dinsert_ne _ nm2 nm _ heq]
                  exact hdget

/-! ### String containment lemmas -/

theorem isPrefixOf_append_self (n s : List Char) :
    n.isPrefixOf (n ++ s) = true := by
  induction n with
  | nil => simp
  | cons a as ih => simp [List.isPrefixOf, ih]

theorem listInfixOf_of_isPrefixOf (n h : List Char)
    (hp : n.isPrefixOf h = true) : listInfixOf n h = true := by
  cases h with
  | nil =>
      cases n with
      | nil => rfl
      | cons a as => simp [List.isPrefixOf] at hp
  | cons a t => simp [listInfixOf, hp]

theorem listInfixOf_cons (n : List Char) (a : Char) (t : List Char)
    (h : listInfixOf n t = true) : listInfixOf n (a :: t) = true := by
  simp [listInfixOf, h]

theorem listInfixOf_append (n p s : List Char) :
    listInfixOf n (p ++ (n ++ s)) = true := by
  induction p with
  | nil => exact listInfixOf_of_isPrefixOf n (n ++ s) (isPrefixOf_append_self n s)
  | cons a p' ih => exact listInfixOf_cons _ a _ ih

theorem strContains_middle (a nm b : String) :
    strContains (a ++ nm ++ b) nm = true := by
  have h : (a ++ nm ++ b).toList = a.toList ++ (nm.toList ++ b.toList) := by
    simp [String.toList]
  rw [strContains, h]
  exact listInfixOf_append nm.toList a.toList b.toList

/-! ### C7: team name resolution -/

/-- C7: `get_team_by_name` returns a live (truthy) name-index hit
without any remote call; on a miss it fetches the full team list once,
returns the first team whose `"name"` equals the requested name, and —
when the match is the unique team claiming that id and that name —
leaves it cached both under its id and under its name with the same
value and expiry; when no team matches, it raises a `ValueError` whose
message carries the requested name. -/
theorem c7_team_name_resolution (cache : CacheManager) (now : ℤ)
    (fetchTeams : Res (List Record)) (nm : String) :
    (∀ v, (cache.getTeamByName now nm).2 = some v → v ≠ [] →
        (Client.getTeamByName cache now fetchTeams nm).2.1 = .ok v
        ∧ (Client.getTeamByName cache now fetchTeams nm).2.2 = 0)
    ∧ (∀ ts t tid, otruthy (cache.getTeamByName now nm).2 = false →
        fetchTeams = .ok ts →
        ts.find? (fun t2 => dget t2 "name" == some nm) = some t →
        dget t "id" = some tid →
        (∀ t2 ∈ ts, dget t2 "id" = some tid → t2 = t) →
        (∀ t2 ∈ ts, dget t2 "name" = some nm → t2 = t) →
        (Client.getTeamByName cache now fetchTeams nm).2.1 = .ok t
        ∧ (Client.getTeamByName cache now fetchTeams nm).2.2 = 1
        ∧ dget (Client.getTeamByName cache now fetchTeams nm).1.teams tid
            = some ⟨t, now + cache.ttl⟩
        ∧ dget (Client.getTeamByName cache now fetchTeams nm).1.team_names nm
            = some ⟨t, now + cache.ttl⟩)
    ∧ (∀ ts, otruthy (cache.getTeamByName now nm).2 = false →
        fetchTeams = .ok ts →
        ts.find? (fun t2 => dget t2 "name" == some nm) = none →
        (Client.getTeamByName cache now fetchTeams nm).2.1
          = .err (Client.teamNotFoundMsg nm)
        ∧ strContains (Client.teamNotFoundMsg nm) nm = true) := by
  refine ⟨?_, ?_, ?_⟩
  · intro v hv hne
    have htr : otruthy (some v) = true := by
      simpa [otruthy] using hne
    rw [Client.getTeamByName]
    simp [hv, htr]
  · intro ts t tid hmiss hfetch hfind hid huniqI huniqN
    have hred : Client.getTeamByName cache now fetchTeams nm
        = (Client.cacheTeams now (cache.getTeamByName now nm).1 ts,
           .ok t, 1) := by
      rw [Client.getTeamByName]
      simp [hmiss, hfetch, Client.getTeams, hfind]
    have hmem : t ∈ ts := List.mem_of_find?_eq_some hfind
    have hnm : dget t "name" = some nm := by
      have := List.find?_some hfind
      simpa using this
    have httl : (cache.getTeamByName now nm).1.ttl = cache.ttl := rfl
    have hteams : (cache.getTeamByName now nm).1.teams = cache.teams := rfl
    refine ⟨by rw [hred], by rw [hred], ?_, ?_⟩
    · rw [hred]
      have := cacheTeams_dget_teams now t tid ts
        (cache.getTeamByName now nm).1 huniqI (Or.inl ⟨hmem, hid⟩)
      simpa [httl] using this
    · rw [hred]
      have := cacheTeams_dget_names now t nm ts
        (cache.getTeamByName now nm).1 huniqN
        (Or.inl ⟨hmem, ⟨tid, hid⟩, hnm⟩)
      simpa [httl] using this
  · intro ts hmiss hfetch hfind
    constructor
    · rw [Client.getTeamByName]
      simp [hmiss, hfetch, Client.getTeams, hfind]
    · have h : Client.teamNotFoundMsg nm
          = ("Team " ++ Client.squote) ++ nm
            ++ (Client.squote ++ " not found") := by
        simp [Client.teamNotFoundMsg, String.append_assoc]
      rw [h]
      exact strContains_middle _ nm _

/-- C7, witness: the spec scenario — remote list
`[{id: "team1", name: "engineering"}]`, hit on `"engineering"`, cached
under both keys; `"nonexistent"` raises the not-found error. -/
theorem c7_team_name_resolution_witness :
    (Client.getTeamByName (emptyCache 300) 0
        (.ok [[("id", "team1"), ("name", "engineering")]])
        "engineering").2.1 = .ok [("id", "team1"), ("name", "engineering")]
    ∧ dget (Client.getTeamByName (emptyCache 300) 0
        (.ok [[("id", "team1"), ("name", "engineering")]])
        "engineering").1.teams "team1"
      = some ⟨[("id", "team1"), ("name", "engineering")], 300⟩
    ∧ dget (Client.getTeamByName (emptyCache 300) 0
        (.ok [[("id", "team1"), ("name", "engineering")]])
        "engineering").1.team_names "engineering"
      = some ⟨[("id", "team1"), ("name", "engineering")], 300⟩
    ∧ (Client.getTeamByName (emptyCache 300) 0
        (.ok [[("id", "team1"), ("name", "engineering")]])
        "nonexistent").2.1
      = .err (Client.teamNotFoundMsg "nonexistent") := by
  have hb := (c7_team_name_resolution (emptyCache 300) 0
      (.ok [[("id", "team1"), ("name", "engineering")]]) "engineering").2.1
    [[("id", "team1"), ("name", "engineering")]]
    [("id", "team1"), ("name", "engineering")] "team1"
    (by decide) rfl (by decide) (by decide) (by decide) (by decide)
  have hc := ((c7_team_name_resolution (emptyCache 300) 0
      (.ok [[("id", "team1"), ("name", "engineering")]]) "nonexistent").2.2
    [[("id", "team1"), ("name", "engineering")]]
    (by decide) rfl (by decide)).1
  exact ⟨hb.1, hb.2.2.1, hb.2.2.2, hc⟩

/-! ### Lemmas about the batch channel resolver -/

theorem setChannel_channels (c : CacheManager) (now : ℤ) (cid : String)
    (d : Record) :
    (c.setChannel now cid d).channels
      = dinsert c.channels cid ⟨d, now + c.ttl⟩ := by
  cases h1 : dget d "team_id" <;> cases h2 : dget d "name" <;>
    simp [CacheManager.setChannel, h1, h2]

theorem otruthy_liveLookup {κ : Type} [DecidableEq κ]
    (m : List (κ × CacheEntry)) (now : ℤ) (k : κ) (e : CacheEntry)
    (h : dget m k = some e) (hl : e.isExpired now = false)
    (hne : e.value ≠ []) : otruthy (liveLookup m now k) = true := by
  rw [liveLookup_of_live m now k e h hl]
  simpa [otruthy] using hne

theorem batchChansScan_toFetch (now : ℤ) :
    ∀ (ids : List String) (cache : CacheManager)
      (out : List (String × Record)) (toFetch : List String),
      (Client.batchChansScan now cache ids out toFetch).2.2
        = toFetch ++ ids.filter
            (fun cid => !otruthy (liveLookup cache.channels now cid)) := by
  intro ids
  induction ids with
  | nil => intro cache out toFetch; simp [Client.batchChansScan]
  | cons v rest ih =>
      intro cache out toFetch
      have hswap : ∀ cid,
          liveLookup (cleanupExpired cache.channels now) now cid
            = liveLookup cache.channels now cid :=
        fun cid => liveLookup_cleanup _ now cid
      cases hhit : otruthy (liveLookup cache.channels now v) with
      | true =>
          rw [Client.batchChansScan]
          have : otruthy (cache.getChannel now v).2 = true := hhit
          rw [if_pos this, ih]
          have hfc : (cache.getChannel now v).1.channels
              = cleanupExpired cache.channels now := rfl
          rw [hfc, List.filter_congr (fun a _ => by rw [hswap a])]
          simp [List.filter, hhit]
      | false =>
          rw [Client.batchChansScan]
          have : ¬ otruthy (cache.getChannel now v).2 = true := by
            simp [CacheManager.getChannel, hhit]
          rw [if_neg this, ih]
          have hfc : (cache.getChannel now v).1.channels
              = cleanupExpired cache.channels now := rfl
          rw [hfc, List.filter_congr (fun a _ => by rw [hswap a])]
          simp [List.filter, hhit]

theorem batchChansFetch_trace (now : ℤ) (fetch : String → Res Record) :
    ∀ (pending : List String) (cache : CacheManager)
      (out : List (String × Record)) (trace : List String),
      (Client.batchChansFetch now fetch cache pending out trace).2.2
        = trace ++ pending := by
  intro pending
  induction pending with
  | nil => intro cache out trace; simp [Client.batchChansFetch]
  | cons cid rest ih =>
      intro cache out trace
      rw [Client.batchChansFetch]
      cases hf : fetch cid <;> simp [hf, ih]

theorem batchChansScan_covers (now : ℤ) :
    ∀ (ids : List String) (cache : CacheManager)
      (out : List (String × Record)) (toFetch : List String)
      (cid : String),
      ((dget out cid).isSome ∨ cid ∈ toFetch ∨ cid ∈ ids) →
      ((dget (Client.batchChansScan now cache ids out toFetch).2.1 cid).isSome
        ∨ cid ∈ (Client.batchChansScan now cache ids out toFetch).2.2) := by
  intro ids
  induction ids with
  | nil =>
      intro cache out toFetch cid h
      rcases h with h | h | h
      · exact Or.inl h
      · exact Or.inr h
      · simp at h
  | cons v rest ih =>
      intro cache out toFetch cid h
      rw [Client.batchChansScan]
      by_cases hhit : otruthy (cache.getChannel now v).2 = true
      · rw [if_pos hhit]
        refine ih _ _ _ cid ?_
        rcases h with h | h | h
        · exact Or.inl (dget_dinsert_isSome out v cid _ (Or.inl h))
        · exact Or.inr (Or.inl h)
        · rcases List.mem_cons.mp h with heq | hmem
          · exact Or.inl (dget_dinsert_isSome out v cid _ (Or.inr heq.symm))
          · exact Or.inr (Or.inr hmem)
      · rw [if_neg hhit]
        refine ih _ _ _ cid ?_
        rcases h with h | h | h
        · exact Or.inl h
        · exact Or.inr (Or.inl (List.mem_append_left _ h))
        · rcases List.mem_cons.mp h with heq | hmem
          · subst heq
            exact Or.inr (Or.inl (List.mem_append_right _ (by simp)))
          · exact Or.inr (Or.inr hmem)

theorem batchChansFetch_covers (now : ℤ) (fetch : String → Res Record) :
    ∀ (pending : List String) (cache : CacheManager)
      (out : List (String × Record)) (trace : List String)
      (cid : String),
      ((dget out cid).isSome ∨ cid ∈ pending) →
      (dget (Client.batchChansFetch now fetch cache pending out trace).2.1
        cid).isSome := by
  intro pending
  induction pending with
  | nil =>
      intro cache out trace cid h
      rcases h with h | h
      · exact h
      · simp at h
  | cons v rest ih =>
      intro cache out trace cid h
      rw [Client.batchChansFetch]
      have hnext : ∀ (x : Record),
          (dget (dinsert out v x) cid).isSome ∨ cid ∈ rest := by
        intro x
        rcases h with h | h
        · exact Or.inl (dget_dinsert_isSome out v cid x (Or.inl h))
        · rcases List.mem_cons.mp h with heq | hmem
          · exact Or.inl (dget_dinsert_isSome out v cid x (Or.inr heq.symm))
          · exact Or.inr hmem
      cases hf : fetch v
      · exact ih _ _ _ cid (hnext _)
      · exact ih _ _ _ cid (hnext _)

theorem batchChansScan_absent (now : ℤ) :
    ∀ (ids : List String) (cache : CacheManager)
      (out : List (String × Record)) (toFetch : List String)
      (cid : String),
      dget cache.channels cid = none → dget out cid = none →
      dget (Client.batchChansScan now cache ids out toFetch).1.channels cid
          = none
      ∧ dget (Client.batchChansScan now cache ids out toFetch).2.1 cid
          = none := by
  intro ids
  induction ids with
  | nil =>
      intro cache out toFetch cid hc ho
      exact ⟨hc, ho⟩
  | cons v rest ih =>
      intro cache out toFetch cid hc ho
      have hc' : dget (cache.getChannel now v).1.channels cid = none :=
        dget_cleanup_none _ now cid hc
      rw [Client.batchChansScan]
      by_cases hhit : otruthy (cache.getChannel now v).2 = true
      · rw [if_pos hhit]
        refine ih _ _ _ cid hc' ?_
        have hv : v ≠ cid := by
          intro heq
          subst heq
          have : (cache.getChannel now v).2 = none :=
            liveLookup_none _ now v hc
          rw [this] at hhit
          simp [otruthy] at hhit
        rw [dget_dinsert_ne out v cid _ hv]
        exact ho
      · rw [if_neg hhit]
        exact ih _ _ _ cid hc' ho

theorem batchChansFetch_fallback (now : ℤ) (fetch : String → Res Record)
    (cid : String) (m : String) (hferr : fetch cid = .err m) :
    ∀ (pending : List String) (cache : CacheManager)
      (out : List (String × Record)) (trace : List String),
      dget cache.channels cid = none →
      dget (Client.batchChansFetch now fetch cache pending out trace).2.1 cid
        = (if cid ∈ pending then some (fallbackChannel cid) else dget out cid)
      ∧ dget
          (Client.batchChansFetch now fetch cache pending out trace).1.channels
          cid = none := by
  intro pending
  induction pending with
  | nil =>
      intro cache out trace hc
      simp [Client.batchChansFetch, hc]
  | cons v rest ih =>
      intro cache out trace hc
      rw [Client.batchChansFetch]
      by_cases hv : v = cid
      · subst hv
        rw [hferr]
        have h := ih cache (dinsert out v (fallbackChannel v)) (trace ++ [v]) hc
        refine ⟨?_, h.2⟩
        rw [h.1]
        by_cases hmem : v ∈ rest <;>
          simp [hmem, dget_dinsert_self]
      · have hcv : ¬ (cid = v) := fun hcv => hv hcv.symm
        cases hf : fetch v with
        | ok ch =>
            have hc2 : dget (cache.setChannel now v ch).channels cid = none := by
              rw [setChannel_channels, dget_dinsert_ne _ v cid _ hv]
              exact hc
            have h := ih (cache.setChannel now v ch) (dinsert out v ch)
              (trace ++ [v]) hc2
            refine ⟨?_, h.2⟩
            rw [h.1, dget_dinsert_ne out v cid _ hv]
            by_cases hmem : cid ∈ rest <;>
              simp [hmem, List.mem_cons, hcv]
        | err m2 =>
            have h := ih cache (dinsert out v (fallbackChannel v))
              (trace ++ [v]) hc
            refine ⟨?_, h.2⟩
            rw [h.1, dget_dinsert_ne out v cid _ hv]
            by_cases hmem : cid ∈ rest <;>
              simp [hmem, List.mem_cons, hcv]

/-! ### Lemmas about `get_user` (client) and the batch user resolver -/

theorem clientGetUser_me (cache : CacheManager) (now : ℤ)
    (fetch : String → Res Record) :
    Client.getUser cache now fetch "me" = (cache, fetch "me", ["me"]) := by
  simp [Client.getUser]

theorem clientGetUser_hit (cache : CacheManager) (now : ℤ)
    (fetch : String → Res Record) (uid : String) (v : Record)
    (hme : uid ≠ "me") (hhit : (cache.getUser now uid).2 = some v)
    (hne : v ≠ []) :
    Client.getUser cache now fetch uid
      = ((cache.getUser now uid).1, .ok v, []) := by
  have ht : otruthy (cache.getUser now uid).2 = true := by
    rw [hhit]
    simpa [otruthy] using hne
  rw [Client.getUser, if_neg hme, if_pos ht]
  simp [hhit]

theorem clientGetUser_miss_ok (cache : CacheManager) (now : ℤ)
    (fetch : String → Res Record) (uid : String) (u : Record)
    (hme : uid ≠ "me") (hmiss : otruthy (cache.getUser now uid).2 = false)
    (hok : fetch uid = .ok u) :
    Client.getUser cache now fetch uid
      = ((match dget u "id" with
          | some i => (cache.getUser now uid).1.setUser now i u
          | none => (cache.getUser now uid).1), .ok u, [uid]) := by
  rw [Client.getUser, if_neg hme, if_neg (by simp [hmiss]), hok]

theorem clientGetUser_miss_err (cache : CacheManager) (now : ℤ)
    (fetch : String → Res Record) (uid : String) (m : String)
    (hme : uid ≠ "me") (hmiss : otruthy (cache.getUser now uid).2 = false)
    (herr : fetch uid = .err m) :
    Client.getUser cache now fetch uid
      = ((cache.getUser now uid).1, .err m, [uid]) := by
  rw [Client.getUser, if_neg hme, if_neg (by simp [hmiss]), herr]

theorem clientGetUser_ttl (cache : CacheManager) (now : ℤ)
    (fetch : String → Res Record) (uid : String) :
    (Client.getUser cache now fetch uid).1.ttl = cache.ttl := by
  by_cases hme : uid = "me"
  · subst hme
    rw [clientGetUser_me]
  · by_cases ht : otruthy (cache.getUser now uid).2 = true
    · cases hv : (cache.getUser now uid).2 with
      | none => rw [hv] at ht; simp [otruthy] at ht
      | some v =>
          have hne : v ≠ [] := by
            rw [hv] at ht
            simpa [otruthy] using ht
          rw [clientGetUser_hit cache now fetch uid v hme hv hne]
          rfl
    · rw [Bool.not_eq_true] at ht
      cases hf : fetch uid with
      | ok u =>
          rw [clientGetUser_miss_ok cache now fetch uid u hme ht hf]
          cases hu : dget u "id" <;>
            simp [hu, CacheManager.setUser, CacheManager.getUser]
      | err m =>
          rw [clientGetUser_miss_err cache now fetch uid m hme ht hf]
          rfl

theorem clientGetUser_absent (cache : CacheManager) (now : ℤ)
    (fetch : String → Res Record) (v uid : String)
    (hnone : dget cache.users uid = none)
    (hnoclaim : ∀ u0, fetch v = .ok u0 → dget u0 "id" ≠ some uid) :
    dget (Client.getUser cache now fetch v).1.users uid = none := by
  by_cases hme : v = "me"
  · subst hme
    rw [clientGetUser_me]
    exact hnone
  · by_cases ht : otruthy (cache.getUser now v).2 = true
    · cases hv : (cache.getUser now v).2 with
      | none => rw [hv] at ht; simp [otruthy] at ht
      | some val =>
          have hne : val ≠ [] := by
            rw [hv] at ht
            simpa [otruthy] using ht
          rw [clientGetUser_hit cache now fetch v val hme hv hne]
          exact dget_cleanup_none _ now uid hnone
    · rw [Bool.not_eq_true] at ht
      cases hf : fetch v with
      | ok u =>
          rw [clientGetUser_miss_ok cache now fetch v u hme ht hf]
          cases hu : dget u "id" with
          | none => exact dget_cleanup_none _ now uid hnone
          | some i =>
              have hi : i ≠ uid := by
                intro he
                subst he
                exact hnoclaim u hf hu
              simp only [CacheManager.setUser, CacheManager.getUser]
              rw [dget_dinsert_ne _ i uid _ hi]
              exact dget_cleanup_none _ now uid hnone
      | err m =>
          rw [clientGetUser_miss_err cache now fetch v m hme ht hf]
          exact dget_cleanup_none _ now uid hnone

theorem clientGetUser_absent_err (cache : CacheManager) (now : ℤ)
    (fetch : String → Res Record) (uid : String) (m : String)
    (hnone : dget cache.users uid = none) (herr : fetch uid = .err m) :
    (Client.getUser cache now fetch uid).2.1 = .err m
    ∧ dget (Client.getUser cache now fetch uid).1.users uid = none := by
  by_cases hme : uid = "me"
  · subst hme
    rw [clientGetUser_me]
    exact ⟨by rw [herr], hnone⟩
  · have hmiss : otruthy (cache.getUser now uid).2 = false := by
      have h : (cache.getUser now uid).2 = none :=
        liveLookup_none _ now uid hnone
      rw [h]
      rfl
    rw [clientGetUser_miss_err cache now fetch uid m hme hmiss herr]
    exact ⟨rfl, dget_cleanup_none _ now uid hnone⟩

theorem batchUsersScan_ttl (now : ℤ) :
    ∀ (ids : List String) (cache : CacheManager)
      (out : List (String × Record)) (toFetch : List String),
      (Client.batchUsersScan now cache ids out toFetch).1.ttl = cache.ttl := by
  intro ids
  induction ids with
  | nil => intro cache out toFetch; rfl
  | cons v rest ih =>
      intro cache out toFetch
      rw [Client.batchUsersScan]
      by_cases hhit : otruthy (cache.getUser now v).2 = true
      · rw [if_pos hhit, ih]
        rfl
      · rw [if_neg hhit, ih]
        rfl

theorem batchUsersScan_subset (now : ℤ) :
    ∀ (ids : List String) (cache : CacheManager)
      (out : List (String × Record)) (toFetch : List String) (x : String),
      x ∈ (Client.batchUsersScan now cache ids out toFetch).2.2 →
      x ∈ toFetch ∨ x ∈ ids := by
  intro ids
  induction ids with
  | nil =>
      intro cache out toFetch x hx
      exact Or.inl hx
  | cons v rest ih =>
      intro cache out toFetch x hx
      rw [Client.batchUsersScan] at hx
      by_cases hhit : otruthy (cache.getUser now v).2 = true
      · rw [if_pos hhit] at hx
        rcases ih _ _ _ x hx with h | h
        · exact Or.inl h
        · exact Or.inr (List.mem_cons_of_mem _ h)
      · rw [if_neg hhit] at hx
        rcases ih _ _ _ x hx with h | h
        · rcases List.mem_append.mp h with h' | h'
          · exact Or.inl h'
          · simp at h'
            subst h'
            exact Or.inr (List.mem_cons_self _ _)
        · exact Or.inr (List.mem_cons_of_mem _ h)

theorem batchUsersScan_covers (now : ℤ) :
    ∀ (ids : List String) (cache : CacheManager)
      (out : List (String × Record)) (toFetch : List String)
      (uid : String),
      ((dget out uid).isSome ∨ uid ∈ toFetch ∨ uid ∈ ids) →
      ((dget (Client.batchUsersScan now cache ids out toFetch).2.1 uid).isSome
        ∨ uid ∈ (Client.batchUsersScan now cache ids out toFetch).2.2) := by
  intro ids
  induction ids with
  | nil =>
      intro cache out toFetch uid h
      rcases h with h | h | h
      · exact Or.inl h
      · exact Or.inr h
      · simp at h
  | cons v rest ih =>
      intro cache out toFetch uid h
      rw [Client.batchUsersScan]
      by_cases hhit : otruthy (cache.getUser now v).2 = true
      · rw [if_pos hhit]
        refine ih _ _ _ uid ?_
        rcases h with h | h | h
        · exact Or.inl (dget_dinsert_isSome out v uid _ (Or.inl h))
        · exact Or.inr (Or.inl h)
        · rcases List.mem_cons.mp h with heq | hmem
          · exact Or.inl (dget_dinsert_isSome out v uid _ (Or.inr heq.symm))
          · exact Or.inr (Or.inr hmem)
      · rw [if_neg hhit]
        refine ih _ _ _ uid ?_
        rcases h with h | h | h
        · exact Or.inl h
        · exact Or.inr (Or.inl (List.mem_append_left _ h))
        · rcases List.mem_cons.mp h with heq | hmem
          · subst heq
            exact Or.inr (Or.inl (List.mem_append_right _ (by simp)))
          · exact Or.inr (Or.inr hmem)

theorem batchUsersScan_absent (now : ℤ) :
    ∀ (ids : List String) (cache : CacheManager)
      (out : List (String × Record)) (toFetch : List String)
      (uid : String),
      dget cache.users uid = none → dget out uid = none →
      dget (Client.batchUsersScan now cache ids out toFetch).1.users uid
          = none
      ∧ dget (Client.batchUsersScan now cache ids out toFetch).2.1 uid
          = none := by
  intro ids
  induction ids with
  | nil =>
      intro cache out toFetch uid hc ho
      exact ⟨hc, ho⟩
  | cons v rest ih =>
      intro cache out toFetch uid hc ho
      have hc' : dget (cache.getUser now v).1.users uid = none :=
        dget_cleanup_none _ now uid hc
      rw [Client.batchUsersScan]
      by_cases hhit : otruthy (cache.getUser now v).2 = true
      · rw [if_pos hhit]
        refine ih _ _ _ uid hc' ?_
        have hv : v ≠ uid := by
          intro heq
          subst heq
          have h : (cache.getUser now v).2 = none :=
            liveLookup_none _ now v hc
          rw [h] at hhit
          simp [otruthy] at hhit
        rw [dget_dinsert_ne out v uid _ hv]
        exact ho
      · rw [if_neg hhit]
        exact ih _ _ _ uid hc' ho

theorem batchUsersFetch_covers (now : ℤ) (fetch : String → Res Record) :
    ∀ (pending : List String) (cache : CacheManager)
      (out : List (String × Record)) (trace : List String)
      (uid : String),
      ((dget out uid).isSome ∨ uid ∈ pending) →
      (dget (Client.batchUsersFetch now fetch cache pending out trace).2.1
        uid).isSome := by
  intro pending
  induction pending with
  | nil =>
      intro cache out trace uid h
      rcases h with h | h
      · exact h
      · simp at h
  | cons v rest ih =>
      intro cache out trace uid h
      rw [Client.batchUsersFetch]
      have hnext : ∀ (x : Record),
          (dget (dinsert out v x) uid).isSome ∨ uid ∈ rest := by
        intro x
        rcases h with h | h
        · exact Or.inl (dget_dinsert_isSome out v uid x (Or.inl h))
        · rcases List.mem_cons.mp h with heq | hmem
          · exact Or.inl (dget_dinsert_isSome out v uid x (Or.inr heq.symm))
          · exact Or.inr hmem
      cases hr : (Client.getUser cache now fetch v).2.1
      · exact ih _ _ _ uid (hnext _)
      · exact ih _ _ _ uid (hnext _)

theorem batchUsersFetch_fallback (now : ℤ) (fetch : String → Res Record)
    (uid : String) (m : String) (hferr : fetch uid = .err m)
    (hnoclaim : ∀ v u0, fetch v = .ok u0 → dget u0 "id" ≠ some uid) :
    ∀ (pending : List String) (cache : CacheManager)
      (out : List (String × Record)) (trace : List String),
      dget cache.users uid = none →
      dget (Client.batchUsersFetch now fetch cache pending out trace).2.1 uid
        = (if uid ∈ pending then some (fallbackUser uid) else dget out uid)
      ∧ dget
          (Client.batchUsersFetch now fetch cache pending out trace).1.users
          uid = none := by
  intro pending
  induction pending with
  | nil =>
      intro cache out trace hc
      simp [Client.batchUsersFetch, hc]
  | cons v rest ih =>
      intro cache out trace hc
      rw [Client.batchUsersFetch]
      by_cases hv : v = uid
      · subst hv
        have hres := clientGetUser_absent_err cache now fetch v m hc hferr
        rw [hres.1]
        have h := ih (Client.getUser cache now fetch v).1
          (dinsert out v (fallbackUser v))
          (trace ++ (Client.getUser cache now fetch v).2.2) hres.2
        refine ⟨?_, h.2⟩
        rw [h.1]
        by_cases hmem : v ∈ rest <;>
          simp [hmem, dget_dinsert_self]
      · have hcuid : ¬ (uid = v) := fun hcv => hv hcv.symm
        have habs : dget (Client.getUser cache now fetch v).1.users uid
            = none :=
          clientGetUser_absent cache now fetch v uid hc
            (fun u0 hf => hnoclaim v u0 hf)
        cases hr : (Client.getUser cache now fetch v).2.1 with
        | ok u =>
            have h := ih (Client.getUser cache now fetch v).1
              (dinsert out v u)
              (trace ++ (Client.getUser cache now fetch v).2.2) habs
            refine ⟨?_, h.2⟩
            rw [h.1, dget_dinsert_ne out v uid _ hv]
            by_cases hmem : uid ∈ rest <;>
              simp [hmem, List.mem_cons, hcuid]
        | err m2 =>
            have h := ih (Client.getUser cache now fetch v).1
              (dinsert out v (fallbackUser v))
              (trace ++ (Client.getUser cache now fetch v).2.2) habs
            refine ⟨?_, h.2⟩
            rw [h.1, dget_dinsert_ne out v uid _ hv]
            by_cases hmem : uid ∈ rest <;>
              simp [hmem, List.mem_cons, hcuid]

theorem batchUsersFetch_nodup (now : ℤ) (fetch : String → Res Record) :
    ∀ (pending : List String) (cache : CacheManager)
      (out : List (String × Record)) (trace : List String),
      0 ≤ cache.ttl →
      (∀ v ∈ pending, v ≠ "me"
        ∧ ∃ u, fetch v = .ok u ∧ dget u "id" = some v) →
      (∀ w ∈ trace, ∃ e, dget cache.users w = some e
        ∧ e.isExpired now = false ∧ e.value ≠ []) →
      trace.Nodup →
      (Client.batchUsersFetch now fetch cache pending out trace).2.2.Nodup := by
  intro pending
  induction pending with
  | nil =>
      intro cache out trace _ _ _ hnd
      exact hnd
  | cons v rest ih =>
      intro cache out trace httl hpend htrace hnd
      obtain ⟨hvme, u, hfu, hid⟩ := hpend v (List.mem_cons_self _ _)
      have hpend' : ∀ w ∈ rest, w ≠ "me"
          ∧ ∃ u0, fetch w = .ok u0 ∧ dget u0 "id" = some w :=
        fun w hw => hpend w (List.mem_cons_of_mem _ hw)
      rw [Client.batchUsersFetch]
      by_cases ht : otruthy (cache.getUser now v).2 = true
      · cases hv2 : (cache.getUser now v).2 with
        | none => rw [hv2] at ht; simp [otruthy] at ht
        | some val =>
            have hne : val ≠ [] := by
              rw [hv2] at ht
              simpa [otruthy] using ht
            rw [clientGetUser_hit cache now fetch v val hvme hv2 hne]
            simp only [List.append_nil]
            refine ih _ _ _ httl hpend' ?_ hnd
            intro w hw
            obtain ⟨e, he, hel, hev⟩ := htrace w hw
            exact ⟨e, dget_cleanup_live _ now w e he hel, hel, hev⟩
      · rw [Bool.not_eq_true] at ht
        rw [clientGetUser_miss_ok cache now fetch v u hvme ht hfu]
        simp only [hid]
        have hvnot : v ∉ trace := by
          intro hw
          obtain ⟨e, he, hel, hev⟩ := htrace v hw
          have htr : otruthy (liveLookup cache.users now v) = true :=
            otruthy_liveLookup cache.users now v e he hel hev
          have heq : (cache.getUser now v).2
              = liveLookup cache.users now v := rfl
          rw [heq, htr] at ht
          exact Bool.noConfusion ht
        refine ih _ _ _ ?_ hpend' ?_ ?_
        · exact httl
        · intro w hw
          rcases List.mem_append.mp hw with hw' | hw'
          · obtain ⟨e, he, hel, hev⟩ := htrace w hw'
            have hwv : v ≠ w := fun heq => hvnot (heq ▸ hw')
            refine ⟨e, ?_, hel, hev⟩
            simp only [CacheManager.setUser, CacheManager.getUser]
            rw [dget_dinsert_ne _ v w _ hwv]
            exact dget_cleanup_live _ now w e he hel
          · simp at hw'
            subst hw'
            refine ⟨⟨u, now + cache.ttl⟩, ?_, ?_, ?_⟩
            · simp only [CacheManager.setUser, CacheManager.getUser]
              exact dget_dinsert_self _ w _
            · simp only [CacheEntry.isExpired]
              simp
              omega
            · exact dget_ne_nil u "id" w hid
        · simp [List.nodup_append, hnd, hvnot]

/-! ### C1: deduplication of batch fetches -/

/-- C1, counterexample: for `_batch_get_channels` with an uncached id
appearing twice, the miss list keeps both occurrences and the fetch
loop performs a wrapped remote fetch for each occurrence (two fetches,
not the exactly one the claim requires), even though every fetch
succeeds. -/
theorem c1_channels_duplicate_two_fetches :
    (Client.batchGetChannels (emptyCache 300) 0
        (fun cid => Res.ok [("id", cid)]) ["c1", "c1"]).2.2 = ["c1", "c1"]
    ∧ (Client.batchGetChannels (emptyCache 300) 0
        (fun cid => Res.ok [("id", cid)]) ["c1", "c1"]).2.2.length ≠ 1 := by
  decide

/-- C1, amended: the user-id instance fetches each distinct id at most
once provided every fetch succeeds with a record carrying the requested
id (the second occurrence hits the cache written by the first fetch);
the channel-id instance performs one wrapped remote fetch per
occurrence of an id with no truthy live cache entry — its miss list
keeps duplicates and its fetch loop never re-checks the cache. -/
theorem c1_batch_dedup_amended (cache : CacheManager) (now : ℤ)
    (fetchU fetchC : String → Res Record) (ids : List String)
    (httl : 0 ≤ cache.ttl)
    (hids : ∀ uid ∈ ids, uid ≠ "me"
        ∧ ∃ u, fetchU uid = .ok u ∧ dget u "id" = some uid) :
    (Client.batchGetUsers cache now fetchU ids).2.2.Nodup
    ∧ (Client.batchGetChannels cache now fetchC ids).2.2
      = ids.filter
          (fun cid => !otruthy (liveLookup cache.channels now cid)) := by
  constructor
  · rw [Client.batchGetUsers]
    refine batchUsersFetch_nodup now fetchU _ _ _ _ ?_ ?_ ?_ ?_
    · rw [batchUsersScan_ttl]
      exact httl
    · intro v hvmem
      rcases batchUsersScan_subset now ids cache [] [] v hvmem with h | h
      · simp at h
      · exact hids v h
    · intro w hw
      simp at hw
    · exact List.nodup_nil
  · rw [Client.batchGetChannels, batchChansFetch_trace,
      batchChansScan_toFetch]
    simp

/-- C1, witness: duplicated uncached ids, every fetch returning a
record with the requested id — the user trace has no duplicates and the
channel trace is exactly the per-occurrence miss list. -/
theorem c1_batch_dedup_amended_witness :
    (Client.batchGetUsers (emptyCache 300) 0
        (fun uid => Res.ok [("id", uid)]) ["u1", "u1", "u2"]).2.2.Nodup
    ∧ (Client.batchGetChannels (emptyCache 300) 0
        (fun cid => Res.ok [("id", cid)]) ["u1", "u1", "u2"]).2.2
      = ["u1", "u1", "u2"].filter
          (fun cid => !otruthy (liveLookup (emptyCache 300).channels 0 cid)) :=
  c1_batch_dedup_amended (emptyCache 300) 0
    (fun uid => Res.ok [("id", uid)]) (fun cid => Res.ok [("id", cid)])
    ["u1", "u1", "u2"] (by decide)
    (by
      intro uid hmem
      refine ⟨?_, [("id", uid)], rfl, ?_⟩
      · simp at hmem
        rcases hmem with h | h <;> (subst h; decide)
      · simp [dget])

/-! ### C6: batch resolvers never fail and fall back per id -/

/-- C6: for both batch resolvers, the output mapping has an entry for
every requested id (the operations are total functions — no exception
escapes); an id whose wrapped fetch fails and which has no cache entry
gets the fallback record, carrying that id, in the output only — the
cache still has no entry for it afterwards (for users, under the side
condition that no other fetched record claims that id, since `get_user`
caches under the fetched record's own id field). -/
theorem c6_batch_never_fails_fallback (cache : CacheManager) (now : ℤ)
    (fetchU fetchC : String → Res Record) (ids : List String)
    (uid cid : String) (mu mc : String) :
    (uid ∈ ids →
        (dget (Client.batchGetUsers cache now fetchU ids).2.1 uid).isSome)
    ∧ (uid ∈ ids → fetchU uid = .err mu →
        (∀ v u, fetchU v = .ok u → dget u "id" ≠ some uid) →
        dget cache.users uid = none →
        dget (Client.batchGetUsers cache now fetchU ids).2.1 uid
          = some (fallbackUser uid)
        ∧ dget (fallbackUser uid) "id" = some uid
        ∧ dget (Client.batchGetUsers cache now fetchU ids).1.users uid
          = none)
    ∧ (cid ∈ ids →
        (dget (Client.batchGetChannels cache now fetchC ids).2.1 cid).isSome)
    ∧ (cid ∈ ids → fetchC cid = .err mc →
        dget cache.channels cid = none →
        dget (Client.batchGetChannels cache now fetchC ids).2.1 cid
          = some (fallbackChannel cid)
        ∧ dget (fallbackChannel cid) "id" = some cid
        ∧ dget (Client.batchGetChannels cache now fetchC ids).1.channels cid
          = none) := by
  refine ⟨?_, ?_, ?_, ?_⟩
  · intro hmem
    rw [Client.batchGetUsers]
    refine batchUsersFetch_covers now fetchU _ _ _ _ uid ?_
    have h := batchUsersScan_covers now ids cache [] [] uid
      (Or.inr (Or.inr hmem))
    rcases h with h | h
    · exact Or.inl h
    · exact Or.inr h
  · intro hmem hferr hnoclaim hnone
    have hscan := batchUsersScan_absent now ids cache [] [] uid hnone
      (by simp [dget])
    have hcov := batchUsersScan_covers now ids cache [] [] uid
      (Or.inr (Or.inr hmem))
    have hpend : uid ∈ (Client.batchUsersScan now cache ids [] []).2.2 := by
      rcases hcov with h | h
      · rw [hscan.2] at h
        simp at h
      · exact h
    rw [Client.batchGetUsers]
    have hf := batchUsersFetch_fallback now fetchU uid mu hferr hnoclaim
      (Client.batchUsersScan now cache ids [] []).2.2
      (Client.batchUsersScan now cache ids [] []).1
      (Client.batchUsersScan now cache ids [] []).2.1 [] hscan.1
    refine ⟨?_, by simp [fallbackUser, dget], hf.2⟩
    rw [hf.1, if_pos hpend]
  · intro hmem
    rw [Client.batchGetChannels]
    refine batchChansFetch_covers now fetchC _ _ _ _ cid ?_
    have h := batchChansScan_covers now ids cache [] [] cid
      (Or.inr (Or.inr hmem))
    rcases h with h | h
    · exact Or.inl h
    · exact Or.inr h
  · intro hmem hferr hnone
    have hscan := batchChansScan_absent now ids cache [] [] cid hnone
      (by simp [dget])
    have hcov := batchChansScan_covers now ids cache [] [] cid
      (Or.inr (Or.inr hmem))
    have hpend : cid ∈ (Client.batchChansScan now cache ids [] []).2.2 := by
      rcases hcov with h | h
      · rw [hscan.2] at h
        simp at h
      · exact h
    rw [Client.batchGetChannels]
    have hf := batchChansFetch_fallback now fetchC cid mc hferr
      (Client.batchChansScan now cache ids [] []).2.2
      (Client.batchChansScan now cache ids [] []).1
      (Client.batchChansScan now cache ids [] []).2.1 [] hscan.1
    refine ⟨?_, by simp [fallbackChannel, dget], hf.2⟩
    rw [hf.1, if_pos hpend]

/-- C6, witness: a failing user fetch and a failing channel fetch on a
fresh cache — both outputs carry the fallback record for the failed id,
the outputs cover a mixed success/failure batch, and the failed ids are
not cached. -/
theorem c6_batch_never_fails_fallback_witness :
    (dget (Client.batchGetUsers (emptyCache 300) 0
        (fun u => if u = "u2" then Res.err "boom"
                  else Res.ok [("id", u)]) ["u1", "u2"]).2.1 "u1").isSome
    ∧ dget (Client.batchGetUsers (emptyCache 300) 0
        (fun u => if u = "u2" then Res.err "boom"
                  else Res.ok [("id", u)]) ["u1", "u2"]).2.1 "u2"
      = some (fallbackUser "u2")
    ∧ dget (Client.batchGetUsers (emptyCache 300) 0
        (fun u => if u = "u2" then Res.err "boom"
                  else Res.ok [("id", u)]) ["u1", "u2"]).1.users "u2" = none
    ∧ dget (Client.batchGetChannels (emptyCache 300) 0
        (fun _ => Res.err "down") ["c1"]).2.1 "c1"
      = some (fallbackChannel "c1")
    ∧ dget (Client.batchGetChannels (emptyCache 300) 0
        (fun _ => Res.err "down") ["c1"]).1.channels "c1" = none := by
  have hU := c6_batch_never_fails_fallback (emptyCache 300) 0
    (fun u => if u = "u2" then Res.err "boom" else Res.ok [("id", u)])
    (fun _ => Res.err "down") ["u1", "u2"] "u2" "c1" "boom" "down"
  have hU1 := c6_batch_never_fails_fallback (emptyCache 300) 0
    (fun u => if u = "u2" then Res.err "boom" else Res.ok [("id", u)])
    (fun _ => Res.err "down") ["u1", "u2"] "u1" "c1" "boom" "down"
  have hC := c6_batch_never_fails_fallback (emptyCache 300) 0
    (fun u => if u = "u2" then Res.err "boom" else Res.ok [("id", u)])
    (fun _ => Res.err "down") ["c1"] "u2" "c1" "boom" "down"
  have hu2 := hU.2.1 (by decide) (by decide)
    (by
      intro v u hok
      by_cases hv : v = "u2"
      · subst hv
        simp at hok
      · simp [hv] at hok
        subst hok
        simp [dget, hv])
    (by decide)
  have hc1 := hC.2.2.2 (by decide) (by decide) (by decide)
  exact ⟨hU1.1 (by decide), hu2.1, hu2.2.2, hc1.1, hc1.2.2⟩
